import Mathlib

/-!
Shallow embedding of `src/aggregator.py` (Agastya dashboard pipeline).

The pipeline has three stages:
* `load_all_data` — per (file, sheet) unit: normalize columns, apply the
  region fallback when the whole unit's region column is null, and
  concatenate all units (`aggregator.py` lines 49-66);
* `apply_business_rules` — row-local flags `is_excluded_program`,
  `has_pre`, `has_post`, `prepost_same_date`, `valid_prepost_pair`
  (lines 68-82);
* `compute_metrics` — one metrics row per region key plus a TOTAL row
  (lines 84-137).

Records are modelled as structures of `Option` fields (a pandas NaN is
`none`).  Datetimes carry a day component and a time-of-day component;
pandas `.dt.date` is the projection onto the day component.  Ratio
metrics are rationals; Python's `round(x, 1)` is `round1`.
-/

namespace Agastya

/-- A datetime value: `day` is the calendar date (what pandas `.dt.date`
extracts), `tod` the time-of-day within that date. -/
structure DateTime where
  day : Nat
  tod : Nat
deriving DecidableEq, Repr

/-- A normalized record: the ten canonical fields produced by
`normalize_df`; any field may be missing (`none` models NaN/NaT). -/
structure Record where
  region : Option String
  ignator_id : Option String
  student_id : Option String
  session_id : Option String
  program : Option String
  session_date : Option DateTime
  da_pre_score : Option Int
  da_post_score : Option Int
  da_pre_date : Option DateTime
  da_post_date : Option DateTime
deriving DecidableEq, Repr

/-- A record with every field missing. -/
def blankRecord : Record :=
  ⟨none, none, none, none, none, none, none, none, none, none⟩

/-- `EXCLUDED_PROGRAMS` (aggregator.py lines 13-19), verbatim. -/
def EXCLUDED_PROGRAMS : List String :=
  ["Digikshetra", "Financial Literacy", "I-code", "IMSL-MATH",
   "Young Instructor Training", "Jignyasa", "Ecology", "Library",
   "Art & Craft", "Science Model Making", "Debate/Quiz",
   "Campus Tour", "None", "Plastic Waste Management", "Circle Time",
   "YAP Program", "IA Pre/Post", "Team Building Activity"]

/-- `df['program'].astype(str)` (line 74): a present value keeps its
string form; a missing value (pandas NaN, a float) stringifies to
`"nan"`. -/
def programStr (r : Record) : String :=
  match r.program with
  | some s => s
  | none => "nan"

/-- `df['program'].isin(EXCLUDED_PROGRAMS)` after the string cast
(line 75). -/
def is_excluded_program (r : Record) : Bool :=
  EXCLUDED_PROGRAMS.contains (programStr r)

/-- `df['da_pre_score'].notna()` (line 78). -/
def has_pre (r : Record) : Bool :=
  r.da_pre_score.isSome

/-- `df['da_post_score'].notna()` (line 79). -/
def has_post (r : Record) : Bool :=
  r.da_post_score.isSome

/-- Line 80: both DA dates present and equal at day granularity
(`.dt.date` compares days, ignoring time-of-day). -/
def prepost_same_date (r : Record) : Bool :=
  r.da_pre_date.isSome && r.da_post_date.isSome &&
    (r.da_pre_date.map DateTime.day == r.da_post_date.map DateTime.day)

/-- Line 81: `has_pre & has_post & prepost_same_date`. -/
def valid_prepost_pair (r : Record) : Bool :=
  has_pre r && has_post r && prepost_same_date r

/-! ## Loader (`load_all_data`, lines 49-66)

A unit is one sheet of one file, already column-normalized (the alias
resolution of `normalize_df` is orthogonal to every claim below); it is
paired with the path of the file it came from. -/

/-- `os.path.basename`: the part of the path after the last `/`. -/
def basename (f : String) : String :=
  (f.splitOn "/").getLastD f

/-- `os.path.splitext(...)[0]`: drop the final `.`-separated extension,
keeping the rest. -/
def splitextFst (s : String) : String :=
  let parts := s.splitOn "."
  if parts.length ≤ 1 then s else String.intercalate "." parts.dropLast

/-- The fallback region value for a source file:
`os.path.splitext(os.path.basename(f))[0]` (lines 59-60). -/
def fallbackRegion (f : String) : String :=
  splitextFst (basename f)

/-- Lines 56-61 for one sheet: if the unit's region column is entirely
null, every row's region is set to the fallback derived from the file
name; otherwise the unit is left as is. -/
def loadUnit (fname : String) (unit : List Record) : List Record :=
  if unit.all (fun x => x.region.isNone) then
    unit.map (fun x => { x with region := some (fallbackRegion fname) })
  else
    unit

/-- `load_all_data` over already-parsed units: apply the per-unit region
fallback and concatenate in order of appearance (lines 49-66). -/
def load_all_data (units : List (String × List Record)) : List Record :=
  (units.map (fun u => loadUnit u.1 u.2)).flatten

/-! ## Aggregator (`compute_metrics`, lines 84-137) -/

/-- pandas `Series.nunique`: the number of distinct non-null values. -/
def nunique (l : List (Option String)) : Nat :=
  (l.filterMap id).dedup.length

/-- Python `round(x, 1)` on a rational: round to one decimal place,
half rounded up (Python rounds a float half to even, which no metric
below ever hits at an exact half). -/
def round1 (q : ℚ) : ℚ :=
  (⌊q * 10 + 1 / 2⌋ : ℚ) / 10

/-- One output row of `compute_metrics` (the dict built at lines
108-120 / 123-135), with the spec's canonical field names. -/
structure RegionMetrics where
  Region : String
  unique_students : Nat
  unique_ignators : Nat
  eligible_session_count : Nat
  da_pre_count : Nat
  da_post_count : Nat
  completion_rate_pct : ℚ
  prepost_gap : Int
  wastage_pct : ℚ
  no_da_ignator_count : Nat
  no_da_ignator_list : List String
deriving DecidableEq, Repr

/-- `sub = df[df['region']==r]` (line 88): pandas `==` against a string
is false on NaN, so a null-region record matches no key. -/
def subOf (df : List Record) (r : String) : List Record :=
  df.filter (fun x => decide (x.region = some r))

/-- `eligible_sessions = sub[~sub['is_excluded_program']]` (line 90). -/
def eligibleOf (df : List Record) (r : String) : List Record :=
  (subOf df r).filter (fun x => !is_excluded_program x)

/-- The region keys: `df['region'].fillna('Unknown').unique()`
(line 86); `.unique()` keeps first-occurrence order. -/
def regionKeys (df : List Record) : List String :=
  (df.map (fun x => x.region.getD "Unknown")).dedup

/-- `sorted(regions)` (line 87): the region keys in ascending order. -/
def sortedRegions (df : List Record) : List String :=
  (regionKeys df).insertionSort (· ≤ ·)

/-- The body of the per-region loop (lines 88-120) for key `r`. -/
def regionRow (df : List Record) (r : String) : RegionMetrics :=
  let sub := subOf df r
  let eligible := eligibleOf df r
  let session_count := nunique (eligible.map (fun x => x.session_id))
  let da_pre_count := sub.countP (fun x => has_pre x)
  let da_post_count := sub.countP (fun x => has_post x)
  let gap : Int := (da_pre_count : Int) - (da_post_count : Int)
  let wastage_pct : ℚ :=
    if da_pre_count > 0 then (gap : ℚ) / (da_pre_count : ℚ) * 100 else 0
  let completion_rate : ℚ :=
    if session_count > 0 then (da_post_count : ℚ) / (session_count : ℚ) * 100 else 0
  let igns := (eligible.filterMap (fun x => x.ignator_id)).dedup
  let ignator_did_no_da := igns.filter (fun ign =>
    let ign_rows := eligible.filter (fun x => decide (x.ignator_id = some ign))
    ign_rows.countP (fun x => has_pre x) == 0 &&
      ign_rows.countP (fun x => has_post x) == 0)
  { Region := r
    unique_students := nunique (sub.map (fun x => x.student_id))
    unique_ignators := nunique (sub.map (fun x => x.ignator_id))
    eligible_session_count := session_count
    da_pre_count := da_pre_count
    da_post_count := da_post_count
    completion_rate_pct := round1 completion_rate
    prepost_gap := gap
    wastage_pct := round1 wastage_pct
    no_da_ignator_count := ignator_did_no_da.length
    no_da_ignator_list := ignator_did_no_da }

/-- The TOTAL row (lines 123-135), computed over the full record set
with `max 1` clamped denominators. -/
def totalRow (df : List Record) : RegionMetrics :=
  let eligibleAll := df.filter (fun x => !is_excluded_program x)
  let total_sessions := nunique (eligibleAll.map (fun x => x.session_id))
  let total_pre := df.countP (fun x => has_pre x)
  let total_post := df.countP (fun x => has_post x)
  { Region := "TOTAL"
    unique_students := nunique (df.map (fun x => x.student_id))
    unique_ignators := nunique (df.map (fun x => x.ignator_id))
    eligible_session_count := total_sessions
    da_pre_count := total_pre
    da_post_count := total_post
    completion_rate_pct :=
      round1 ((total_post : ℚ) / (max 1 total_sessions : ℚ) * 100)
    prepost_gap := (total_pre : Int) - (total_post : Int)
    wastage_pct :=
      round1 (((total_pre : ℚ) - (total_post : ℚ)) / (max 1 total_pre : ℚ) * 100)
    no_da_ignator_count := 0
    no_da_ignator_list := [] }

/-- `compute_metrics`: one row per sorted region key, then the TOTAL
row (lines 84-137). -/
def compute_metrics (df : List Record) : List RegionMetrics :=
  (sortedRegions df).map (regionRow df) ++ [totalRow df]

/-! ## Spec-side definitions and concrete inputs -/

/-- Replace only the time-of-day component of the DA pre date. -/
def withPreTod (r : Record) (t : Nat) : Record :=
  { r with da_pre_date := r.da_pre_date.map (fun d => ⟨d.day, t⟩) }

/-- Replace only the time-of-day component of the DA post date. -/
def withPostTod (r : Record) (t : Nat) : Record :=
  { r with da_post_date := r.da_post_date.map (fun d => ⟨d.day, t⟩) }

/-- Spec-side count for C4: the number of distinct (non-null)
`session_id` values among the records of region `r` whose
`is_excluded_program` is false. -/
def distinctEligibleSessions (df : List Record) (r : String) : Nat :=
  ((df.filter (fun x => decide (x.region = some r) && !is_excluded_program x)).filterMap
    (fun x => x.session_id)).dedup.length

/-- A record whose only populated field is `region = "A"`. -/
def recRegionA : Record :=
  { blankRecord with region := some "A" }

/-- One source unit mixing a non-null and a null region value. -/
def cexUnits : List (String × List Record) :=
  [("data/south.xlsx", [recRegionA, blankRecord])]

/-- Region "A", student "Y". -/
def recAY : Record :=
  { blankRecord with
    region := some "A"
    student_id := some "Y" }

/-- Region "B", student "Y". -/
def recBY : Record :=
  { blankRecord with
    region := some "B"
    student_id := some "Y" }

/-- Null region, student "X". -/
def recNullX : Record :=
  { blankRecord with student_id := some "X" }

/-- Student "Y" appears in two regions; student "X" only in a record
with a null region. -/
def df5 : List Record :=
  [recAY, recBY, recNullX]

/-- A record whose region is literally the string `"Unknown"`. -/
def recUnknownU : Record :=
  { blankRecord with
    region := some "Unknown"
    student_id := some "u" }

/-- A null-region record next to a literal-"Unknown" record. -/
def df9 : List Record :=
  [blankRecord, recUnknownU]

/-- A null-region record carrying a pre score. -/
def x9w : Record :=
  { blankRecord with da_pre_score := some 1 }

/-- A record set whose only record has a null region and a pre score. -/
def df9w : List Record :=
  [x9w]

/-! ## Helper lemmas -/

/-- Rounding zero gives zero. -/
theorem round1_zero : round1 0 = 0 := by
  norm_num [round1]

/-- Every non-null region value of a record of `df` is a region key. -/
theorem mem_sortedRegions_of_region (df : List Record) (x : Record) (v : String)
    (hx : x ∈ df) (hv : x.region = some v) : v ∈ sortedRegions df := by
  have h1 : v ∈ df.map (fun y => y.region.getD "Unknown") :=
    List.mem_map.mpr ⟨x, hx, by simp [hv]⟩
  exact ((List.perm_insertionSort _ _).symm.mem_iff).mp (List.mem_dedup.mpr h1)

/-- A null-region record puts the key "Unknown" among the region keys. -/
theorem unknown_mem_sortedRegions (df : List Record) (x : Record)
    (hx : x ∈ df) (hv : x.region = none) : "Unknown" ∈ sortedRegions df := by
  have h1 : "Unknown" ∈ df.map (fun y => y.region.getD "Unknown") :=
    List.mem_map.mpr ⟨x, hx, by simp [hv]⟩
  exact ((List.perm_insertionSort _ _).symm.mem_iff).mp (List.mem_dedup.mpr h1)

/-- The sorted region keys are distinct. -/
theorem nodup_sortedRegions (df : List Record) : (sortedRegions df).Nodup :=
  (List.perm_insertionSort _ _).symm.nodup (List.nodup_dedup _)

/-- Split a count along a second predicate. -/
theorem countP_and_split (l : List Record) (p q : Record → Bool) :
    l.countP p = l.countP (fun x => p x && q x) + l.countP (fun x => p x && !q x) := by
  induction l with
  | nil => simp
  | cons a t ih =>
    simp only [List.countP_cons, ih]
    cases hp : p a <;> cases hq : q a <;> simp [hp, hq] <;> omega

/-- A count of a disjunction of disjoint predicates is the sum of the
counts. -/
theorem countP_or_disjoint (l : List Record) (a b : Record → Bool)
    (h : ∀ x ∈ l, ¬(a x = true ∧ b x = true)) :
    l.countP (fun x => a x || b x) = l.countP a + l.countP b := by
  induction l with
  | nil => simp
  | cons y t ih =>
    have hy := h y (List.mem_cons_self y t)
    have ht : ∀ x ∈ t, ¬(a x = true ∧ b x = true) :=
      fun x hx => h x (List.mem_cons_of_mem y hx)
    simp only [List.countP_cons, ih ht]
    cases ha : a y <;> cases hb : b y <;> simp [ha, hb] at hy ⊢ <;> omega

/-- Summing a per-key count of the key's sub-table over distinct keys
counts the records whose region is one of the keys. -/
theorem sum_countP_subOf (df : List Record) (p : Record → Bool) :
    ∀ (K : List String), K.Nodup →
      (K.map (fun r => (subOf df r).countP p)).sum
        = df.countP (fun x => p x && K.any (fun r => decide (x.region = some r))) := by
  intro K
  induction K with
  | nil =>
    intro _
    simp
  | cons r K' ih =>
    intro hK
    have hr : r ∉ K' := (List.nodup_cons.mp hK).1
    rw [List.map_cons, List.sum_cons, ih (List.nodup_cons.mp hK).2, subOf,
      List.countP_filter]
    rw [← countP_or_disjoint df
      (fun x => p x && decide (x.region = some r))
      (fun x => p x && K'.any (fun s => decide (x.region = some s)))]
    · apply List.countP_congr
      intro x _
      cases hrx : x.region with
      | none => simp
      | some v =>
        simp only [List.any_cons]
        cases p x <;> simp [Bool.and_or_distrib_left]
    · intro x _ hcontra
      obtain ⟨h1, h2⟩ := hcontra
      simp only [Bool.and_eq_true, decide_eq_true_eq] at h1 h2
      obtain ⟨s, hs, hdec⟩ := List.any_eq_true.mp h2.2
      rw [h1.2] at hdec
      simp only [decide_eq_true_eq, Option.some.injEq] at hdec
      exact hr (hdec ▸ hs)

/-- For a record of `df`, matching some sorted region key is the same as
having a non-null region. -/
theorem any_region_key (df : List Record) (x : Record) (hx : x ∈ df) :
    (sortedRegions df).any (fun r => decide (x.region = some r)) = x.region.isSome := by
  cases hv : x.region with
  | none => simp
  | some v =>
    simp only [Option.isSome_some]
    exact List.any_eq_true.mpr
      ⟨v, mem_sortedRegions_of_region df x v hx hv, by simp [hv]⟩

/-- Summing a count over the per-region sub-tables counts exactly the
records with a non-null region. -/
theorem countP_partition (df : List Record) (p : Record → Bool) :
    ((sortedRegions df).map (fun r => (subOf df r).countP p)).sum
      = df.countP (fun x => p x && x.region.isSome) := by
  rw [sum_countP_subOf df p _ (nodup_sortedRegions df)]
  apply List.countP_congr
  intro x hx
  rw [any_region_key df x hx]

/-- A region's metrics row depends on the record set only through the
region's sub-table. -/
theorem regionRow_congr (df df' : List Record) (r : String)
    (h : subOf df r = subOf df' r) : regionRow df r = regionRow df' r := by
  simp only [regionRow, eligibleOf, h]

/-- Backfilling a unit whose region column is all null. -/
theorem loadUnit_all_null (f : String) (unit : List Record)
    (hall : ∀ x ∈ unit, x.region = none) :
    loadUnit f unit = unit.map (fun x => { x with region := some (fallbackRegion f) }) := by
  rw [loadUnit, if_pos]
  exact List.all_eq_true.mpr (fun x hx => Option.isNone_iff_eq_none.mpr (hall x hx))

/-- A unit with a non-null region value is left untouched. -/
theorem loadUnit_not_all_null (f : String) (unit : List Record)
    (h : ∃ x ∈ unit, x.region ≠ none) :
    loadUnit f unit = unit := by
  obtain ⟨x, hx, hne⟩ := h
  rw [loadUnit, if_neg]
  intro hcond
  exact hne (Option.isNone_iff_eq_none.mp (List.all_eq_true.mp hcond x hx))

/-- Double counting: when every record has a non-null region and some
value of `g` spans two regions, the distinct count over the whole table
is strictly below the sum of the per-region distinct counts. -/
theorem sum_nunique_lt (df : List Record) (g : Record → Option String)
    (hreg : ∀ x ∈ df, x.region ≠ none)
    (x1 x2 : Record) (h1 : x1 ∈ df) (h2 : x2 ∈ df)
    (hg1 : g x1 ≠ none) (hgeq : g x1 = g x2) (hrne : x1.region ≠ x2.region) :
    nunique (df.map g) <
      ((sortedRegions df).map (fun r => nunique ((subOf df r).map g))).sum := by
  classical
  set V : Finset String := (df.filterMap g).toFinset with hV
  have htot : nunique (df.map g) = V.card := by
    rw [nunique, List.filterMap_map, hV, List.card_toFinset]
    rfl
  set A : String → Finset String := fun r => ((subOf df r).filterMap g).toFinset with hA
  have hper : ∀ r : String, nunique ((subOf df r).map g) = (A r).card := by
    intro r
    rw [nunique, List.filterMap_map, hA, List.card_toFinset]
    rfl
  have hsubV : ∀ r, A r ⊆ V := by
    intro r v hv
    obtain ⟨x, hx, hgx⟩ := List.mem_filterMap.mp (List.mem_toFinset.mp hv)
    exact List.mem_toFinset.mpr
      (List.mem_filterMap.mpr ⟨x, (List.mem_filter.mp hx).1, hgx⟩)
  have hK : (sortedRegions df).Nodup := nodup_sortedRegions df
  set R : Finset String := (sortedRegions df).toFinset with hR
  have hsum1 : ((sortedRegions df).map (fun r => nunique ((subOf df r).map g))).sum
      = ∑ r ∈ R, (A r).card := by
    rw [hR, List.sum_toFinset _ hK]
    simp only [hper]
  have hcard : ∀ r, (A r).card = ∑ v ∈ V, if v ∈ A r then 1 else 0 := by
    intro r
    rw [← Finset.card_filter]
    congr 1
    rw [Finset.filter_mem_eq_inter]
    exact (Finset.inter_eq_right.mpr (hsubV r)).symm ▸ rfl
  have hswap : ∑ r ∈ R, (A r).card
      = ∑ v ∈ V, (R.filter (fun r => v ∈ A r)).card := by
    calc ∑ r ∈ R, (A r).card
        = ∑ r ∈ R, ∑ v ∈ V, if v ∈ A r then 1 else 0 :=
          Finset.sum_congr rfl (fun r _ => hcard r)
      _ = ∑ v ∈ V, ∑ r ∈ R, if v ∈ A r then 1 else 0 := Finset.sum_comm
      _ = ∑ v ∈ V, (R.filter (fun r => v ∈ A r)).card :=
          Finset.sum_congr rfl (fun v _ => (Finset.card_filter _ _).symm)
  have hone : ∀ v ∈ V, 1 ≤ (R.filter (fun r => v ∈ A r)).card := by
    intro v hv
    obtain ⟨x, hx, hgx⟩ := List.mem_filterMap.mp (List.mem_toFinset.mp hv)
    obtain ⟨rx, hrx⟩ := Option.ne_none_iff_exists'.mp (hreg x hx)
    refine Finset.card_pos.mpr ⟨rx, Finset.mem_filter.mpr ⟨?_, ?_⟩⟩
    · exact List.mem_toFinset.mpr (mem_sortedRegions_of_region df x rx hx hrx)
    · exact List.mem_toFinset.mpr (List.mem_filterMap.mpr
        ⟨x, List.mem_filter.mpr ⟨hx, by simp [hrx]⟩, hgx⟩)
  obtain ⟨v0, hv0⟩ := Option.ne_none_iff_exists'.mp hg1
  obtain ⟨r1, hr1⟩ := Option.ne_none_iff_exists'.mp (hreg x1 h1)
  obtain ⟨r2, hr2⟩ := Option.ne_none_iff_exists'.mp (hreg x2 h2)
  have hr12 : r1 ≠ r2 := by
    intro h
    apply hrne
    rw [hr1, hr2, h]
  have hv0V : v0 ∈ V :=
    List.mem_toFinset.mpr (List.mem_filterMap.mpr ⟨x1, h1, hv0⟩)
  have hv02 : g x2 = some v0 := hgeq ▸ hv0
  have hmem1 : r1 ∈ R.filter (fun r => v0 ∈ A r) := by
    refine Finset.mem_filter.mpr ⟨?_, ?_⟩
    · exact List.mem_toFinset.mpr (mem_sortedRegions_of_region df x1 r1 h1 hr1)
    · exact List.mem_toFinset.mpr (List.mem_filterMap.mpr
        ⟨x1, List.mem_filter.mpr ⟨h1, by simp [hr1]⟩, hv0⟩)
  have hmem2 : r2 ∈ R.filter (fun r => v0 ∈ A r) := by
    refine Finset.mem_filter.mpr ⟨?_, ?_⟩
    · exact List.mem_toFinset.mpr (mem_sortedRegions_of_region df x2 r2 h2 hr2)
    · exact List.mem_toFinset.mpr (List.mem_filterMap.mpr
        ⟨x2, List.mem_filter.mpr ⟨h2, by simp [hr2]⟩, hv02⟩)
  have htwo : 1 < (R.filter (fun r => v0 ∈ A r)).card :=
    Finset.one_lt_card_iff.mpr ⟨r1, r2, hmem1, hmem2, hr12⟩
  have hlt : V.card < ∑ v ∈ V, (R.filter (fun r => v ∈ A r)).card := by
    have hcards : V.card = ∑ _v ∈ V, 1 := by simp
    rw [hcards]
    exact Finset.sum_lt_sum hone ⟨v0, hv0V, htwo⟩
  rw [htot, hsum1, hswap]
  exact hlt

/-! ## Claim theorems -/

/-- C3: `valid_prepost_pair` holds iff `has_pre`, `has_post`, and both
DA dates are present and equal at day granularity; changing only the
time-of-day of either DA date never changes the flag; a record with a
null pre-date never has the flag. -/
theorem valid_prepost_pair_characterization (r : Record) :
    (valid_prepost_pair r = true ↔
      has_pre r = true ∧ has_post r = true ∧
        ∃ d e : DateTime, r.da_pre_date = some d ∧ r.da_post_date = some e ∧
          d.day = e.day) ∧
    (∀ t : Nat, valid_prepost_pair (withPreTod r t) = valid_prepost_pair r) ∧
    (∀ t : Nat, valid_prepost_pair (withPostTod r t) = valid_prepost_pair r) ∧
    (r.da_pre_date = none → valid_prepost_pair r = false) := by
  refine ⟨?_, ?_, ?_, ?_⟩
  · cases hd : r.da_pre_date with
    | none => simp [valid_prepost_pair, prepost_same_date, hd]
    | some d =>
      cases he : r.da_post_date with
      | none => simp [valid_prepost_pair, prepost_same_date, hd, he]
      | some e =>
        simp [valid_prepost_pair, prepost_same_date, hd, he, and_assoc]
  · intro t
    cases hd : r.da_pre_date <;>
      simp [valid_prepost_pair, prepost_same_date, withPreTod, has_pre, has_post, hd]
  · intro t
    cases hd : r.da_post_date <;>
      simp [valid_prepost_pair, prepost_same_date, withPostTod, has_pre, has_post, hd]
  · intro hd
    simp [valid_prepost_pair, prepost_same_date, hd]

/-- C10: a missing program stringifies to "nan", which is not in the
exclusion set (though the literal "None" is), so the record is not
excluded and its non-null session id counts toward the region's
eligible session count. -/
theorem missing_program_not_excluded :
    "None" ∈ EXCLUDED_PROGRAMS ∧ "nan" ∉ EXCLUDED_PROGRAMS ∧
    (∀ r : Record, r.program = none →
      programStr r = "nan" ∧ is_excluded_program r = false) ∧
    (∀ (df : List Record) (x : Record) (reg s : String),
      x ∈ df → x.program = none → x.region = some reg → x.session_id = some s →
      s ∈ (eligibleOf df reg).filterMap (fun y => y.session_id) ∧
      1 ≤ (regionRow df reg).eligible_session_count) := by
  have hnan : ∀ r : Record, r.program = none → is_excluded_program r = false := by
    intro r h
    simp [is_excluded_program, programStr, h]
    decide
  refine ⟨by decide, by decide, fun r h => ⟨by simp [programStr, h], hnan r h⟩, ?_⟩
  intro df x reg s hx hprog hreg hsess
  have hmem : x ∈ eligibleOf df reg := by
    refine List.mem_filter.mpr ⟨List.mem_filter.mpr ⟨hx, ?_⟩, ?_⟩
    · simp [hreg]
    · simp [hnan x hprog]
  have hs : s ∈ (eligibleOf df reg).filterMap (fun y => y.session_id) :=
    List.mem_filterMap.mpr ⟨x, hmem, hsess⟩
  refine ⟨hs, ?_⟩
  have hcount : (regionRow df reg).eligible_session_count
      = ((eligibleOf df reg).filterMap (fun y => y.session_id)).dedup.length := by
    simp [regionRow, nunique, List.filterMap_map, Function.comp]
  rw [hcount]
  have hdup : s ∈ ((eligibleOf df reg).filterMap (fun y => y.session_id)).dedup :=
    List.mem_dedup.mpr hs
  exact Nat.one_le_iff_ne_zero.mpr (by
    intro hlen
    rw [List.length_eq_zero] at hlen
    simp [hlen] at hdup)

/-- C6: a per-region completion rate is 0.0 on a zero eligible session
count and otherwise rounds `da_post_count / eligible_session_count *
100` to one decimal; the division is guarded by the zero test. -/
theorem completion_rate_zero_denominator_guard (df : List Record) (r : String) :
    (regionRow df r).completion_rate_pct =
      if (regionRow df r).eligible_session_count = 0 then 0
      else round1 (((regionRow df r).da_post_count : ℚ) /
        ((regionRow df r).eligible_session_count : ℚ) * 100) := by
  by_cases h : nunique ((eligibleOf df r).map (fun x => x.session_id)) = 0
  · simp [regionRow, h, round1_zero]
  · simp [regionRow, h, Nat.pos_of_ne_zero h]

/-- C2: the TOTAL row clamps both denominators to at least 1, while a
per-region row short-circuits to 0.0 on a zero denominator. -/
theorem total_row_denominator_clamp (df : List Record) (r : String) :
    (totalRow df).completion_rate_pct =
      round1 ((df.countP (fun x => has_post x) : ℚ) /
        (max 1 (nunique ((df.filter (fun x => !is_excluded_program x)).map
          (fun x => x.session_id))) : ℚ) * 100) ∧
    (totalRow df).wastage_pct =
      round1 (((df.countP (fun x => has_pre x) : ℚ) -
        (df.countP (fun x => has_post x) : ℚ)) /
        (max 1 (df.countP (fun x => has_pre x)) : ℚ) * 100) ∧
    ((regionRow df r).eligible_session_count = 0 →
      (regionRow df r).completion_rate_pct = 0) ∧
    ((regionRow df r).da_pre_count = 0 → (regionRow df r).wastage_pct = 0) := by
  refine ⟨rfl, rfl, ?_, ?_⟩
  · intro h
    simp only [regionRow] at h ⊢
    simp [h, round1_zero]
  · intro h
    simp only [regionRow] at h ⊢
    simp [h, round1_zero]

/-- C4: a region's eligible session count is the number of distinct
session ids among its non-excluded records, and a session id whose only
occurrences in the region are excluded never appears among them. -/
theorem eligible_session_count_distinct_nonexcluded (df : List Record) (r : String) :
    (regionRow df r).eligible_session_count = distinctEligibleSessions df r ∧
    (∀ s : String,
      (∀ x ∈ df, x.region = some r → x.session_id = some s →
        is_excluded_program x = true) →
      s ∉ (eligibleOf df r).filterMap (fun x => x.session_id)) := by
  constructor
  · have hfilter : eligibleOf df r
        = df.filter (fun x => decide (x.region = some r) && !is_excluded_program x) := by
      rw [eligibleOf, subOf, List.filter_filter]
      exact List.filter_congr (fun x _ => Bool.and_comm _ _)
    show nunique ((eligibleOf df r).map (fun x => x.session_id))
        = distinctEligibleSessions df r
    rw [hfilter, nunique, distinctEligibleSessions, List.filterMap_map]
    rfl
  · intro s hall hmem
    obtain ⟨x, hx, hsess⟩ := List.mem_filterMap.mp hmem
    have h1 := List.mem_filter.mp hx
    have h2 := List.mem_filter.mp h1.1
    have hreg : x.region = some r := of_decide_eq_true h2.2
    have hx2 := hall x h2.1 hreg hsess
    simp [hx2] at h1

/-- C7: a region's no-DA ignator list holds exactly the distinct
non-null ignator ids appearing among its non-excluded records all of
whose non-excluded records lack both a pre and a post score; the count
is the list's length; the TOTAL row has count 0 and an empty list. -/
theorem no_da_ignator_characterization (df : List Record) (r : String) :
    (regionRow df r).no_da_ignator_list.Nodup ∧
    (∀ ign : String, ign ∈ (regionRow df r).no_da_ignator_list ↔
      ((∃ x ∈ eligibleOf df r, x.ignator_id = some ign) ∧
        ∀ x ∈ eligibleOf df r, x.ignator_id = some ign →
          has_pre x = false ∧ has_post x = false)) ∧
    (regionRow df r).no_da_ignator_count = (regionRow df r).no_da_ignator_list.length ∧
    (totalRow df).no_da_ignator_count = 0 ∧
    (totalRow df).no_da_ignator_list = [] := by
  have hlist : (regionRow df r).no_da_ignator_list =
      ((eligibleOf df r).filterMap (fun x => x.ignator_id)).dedup.filter (fun ign =>
        ((eligibleOf df r).filter
          (fun x => decide (x.ignator_id = some ign))).countP (fun x => has_pre x) == 0 &&
        ((eligibleOf df r).filter
          (fun x => decide (x.ignator_id = some ign))).countP (fun x => has_post x) == 0) := rfl
  refine ⟨?_, ?_, rfl, rfl, rfl⟩
  · rw [hlist]
    exact (List.nodup_dedup _).filter _
  · intro ign
    simp only [hlist, List.mem_filter, List.mem_dedup, List.mem_filterMap,
      Bool.and_eq_true, beq_iff_eq, List.countP_eq_zero, List.mem_filter,
      decide_eq_true_eq, Bool.not_eq_true]
    constructor
    · rintro ⟨⟨x, hx, hix⟩, hpre, hpost⟩
      refine ⟨⟨x, hx, hix⟩, ?_⟩
      intro y hy hiy
      exact ⟨hpre y ⟨hy, hiy⟩, hpost y ⟨hy, hiy⟩⟩
    · rintro ⟨⟨x, hx, hix⟩, hall⟩
      refine ⟨⟨x, hx, hix⟩, ?_, ?_⟩
      · intro y hy
        exact (hall y hy.1 hy.2).1
      · intro y hy
        exact (hall y hy.1 hy.2).2

/-- C8: a unit is backfilled with the file-derived fallback region iff
its region column is entirely null, the fallback value is uniform over
the unit, and a unit with one non-null region value is untouched. -/
theorem region_fallback_unit_level (f : String) (unit : List Record) :
    ((∀ x ∈ unit, x.region = none) →
      loadUnit f unit = unit.map (fun x => { x with region := some (fallbackRegion f) }) ∧
      ∀ y ∈ loadUnit f unit, y.region = some (fallbackRegion f)) ∧
    ((∃ x ∈ unit, x.region ≠ none) → loadUnit f unit = unit) := by
  constructor
  · intro hall
    have heq := loadUnit_all_null f unit hall
    refine ⟨heq, ?_⟩
    intro y hy
    rw [heq] at hy
    obtain ⟨x, hx, rfl⟩ := List.mem_map.mp hy
    rfl
  · exact loadUnit_not_all_null f unit

/-- C1 counterexample: a unit holding one non-null and one null region
value is not backfilled, so a record whose region is null reaches the
Rule Engine and Aggregator. -/
theorem null_region_reaches_aggregator_cex :
    blankRecord ∈ load_all_data cexUnits ∧ blankRecord.region = none := by
  decide

/-- C1 (amended): all-null units are backfilled with the file-derived
fallback; the no-null-region conclusion holds provided no unit mixes
null and non-null region values. -/
theorem region_fallback_and_null_leak :
    (∀ (f : String) (unit : List Record), (∀ x ∈ unit, x.region = none) →
      ∀ y ∈ loadUnit f unit, y.region = some (fallbackRegion f)) ∧
    (∀ units : List (String × List Record),
      (∀ u ∈ units, (∃ x ∈ u.2, x.region ≠ none) → ∀ x ∈ u.2, x.region ≠ none) →
      ∀ y ∈ load_all_data units, y.region ≠ none) := by
  constructor
  · intro f unit hall y hy
    rw [loadUnit_all_null f unit hall] at hy
    obtain ⟨x, hx, rfl⟩ := List.mem_map.mp hy
    rfl
  · intro units hmix y hy
    rw [load_all_data] at hy
    obtain ⟨l, hl, hyl⟩ := List.mem_flatten.mp hy
    obtain ⟨u, hu, rfl⟩ := List.mem_map.mp hl
    by_cases hall : ∀ x ∈ u.2, x.region = none
    · rw [loadUnit_all_null u.1 u.2 hall] at hyl
      obtain ⟨x, hx, rfl⟩ := List.mem_map.mp hyl
      simp
    · push_neg at hall
      rw [loadUnit_not_all_null u.1 u.2 hall] at hyl
      exact hmix u hu hall y hyl

/-- C5 counterexample: student "X" appears only in a null-region record
and student "Y" in two regions, so a student appears in more than one
region yet the TOTAL unique-student count (2) is not strictly less than
the sum of the per-region values (2). -/
theorem unique_totals_not_strictly_less_cex :
    df5.map (fun x => (x.region, x.student_id)) =
      [(some "A", some "Y"), (some "B", some "Y"), (none, some "X")] ∧
    ((sortedRegions df5).map (fun r => (regionRow df5 r).unique_students)).sum = 2 ∧
    (totalRow df5).unique_students = 2 ∧
    ¬ ((totalRow df5).unique_students <
        ((sortedRegions df5).map (fun r => (regionRow df5 r).unique_students)).sum) := by
  have hsort : sortedRegions df5 = ["A", "B", "Unknown"] := by
    rw [sortedRegions, show regionKeys df5 = ["A", "B", "Unknown"] by decide]
    simp [List.insertionSort, List.orderedInsert]
    decide
  refine ⟨by decide, ?_, by decide, ?_⟩
  · rw [hsort]
    decide
  · rw [hsort]
    decide

/-- C5 (amended): the TOTAL unique counts are the distinct non-null
counts over the full record set; when additionally every record has a
non-null region, a student (resp. ignator) appearing in two regions
makes the TOTAL count strictly less than the sum of the per-region
values. -/
theorem unique_totals_total_vs_region_sum (df : List Record) :
    (totalRow df).unique_students = nunique (df.map (fun x => x.student_id)) ∧
    (totalRow df).unique_ignators = nunique (df.map (fun x => x.ignator_id)) ∧
    ((∀ x ∈ df, x.region ≠ none) →
      (∀ x1 ∈ df, ∀ x2 ∈ df, x1.student_id ≠ none → x1.student_id = x2.student_id →
        x1.region ≠ x2.region →
        (totalRow df).unique_students <
          ((sortedRegions df).map (fun r => (regionRow df r).unique_students)).sum) ∧
      (∀ x1 ∈ df, ∀ x2 ∈ df, x1.ignator_id ≠ none → x1.ignator_id = x2.ignator_id →
        x1.region ≠ x2.region →
        (totalRow df).unique_ignators <
          ((sortedRegions df).map (fun r => (regionRow df r).unique_ignators)).sum)) := by
  refine ⟨rfl, rfl, fun hreg => ⟨?_, ?_⟩⟩
  · intro x1 h1 x2 h2 hg1 hgeq hrne
    exact sum_nunique_lt df (fun x => x.student_id) hreg x1 x2 h1 h2 hg1 hgeq hrne
  · intro x1 h1 x2 h2 hg1 hgeq hrne
    exact sum_nunique_lt df (fun x => x.ignator_id) hreg x1 x2 h1 h2 hg1 hgeq hrne

/-- C9 counterexample: with a null-region record alongside a record
whose region is literally "Unknown", the row keyed "Unknown" is not
computed over an empty subset. -/
theorem unknown_row_not_empty_cex :
    blankRecord ∈ df9 ∧ blankRecord.region = none ∧
    (regionRow df9 "Unknown").unique_students = 1 := by
  refine ⟨by decide, rfl, ?_⟩
  decide

/-- C9 (amended): a record with a null region belongs to no per-region
sub-table; the key "Unknown" is emitted; if no record's region is the
literal string "Unknown" the "Unknown" row is computed over the empty
subset; and if the null-region record has a pre score, the per-region
DA-Pre column sums to strictly less than the TOTAL row's DA-Pre. -/
theorem null_region_unknown_row_total (df : List Record) (x : Record)
    (hx : x ∈ df) (hnull : x.region = none) :
    (∀ r : String, x ∉ subOf df r) ∧
    "Unknown" ∈ sortedRegions df ∧
    ((∀ y ∈ df, y.region ≠ some "Unknown") →
      subOf df "Unknown" = [] ∧
      regionRow df "Unknown" = regionRow [] "Unknown") ∧
    (has_pre x = true →
      ((sortedRegions df).map (fun r => (regionRow df r).da_pre_count)).sum
        < (totalRow df).da_pre_count) := by
  refine ⟨?_, unknown_mem_sortedRegions df x hx hnull, ?_, ?_⟩
  · intro r hmem
    have h := (List.mem_filter.mp hmem).2
    rw [hnull] at h
    simp at h
  · intro hno
    have hempty : subOf df "Unknown" = [] := by
      rw [subOf, List.filter_eq_nil_iff]
      intro y hy
      simp [hno y hy]
    exact ⟨hempty, regionRow_congr df [] "Unknown" (by rw [hempty]; rfl)⟩
  · intro hpre
    have hmap : ((sortedRegions df).map (fun r => (regionRow df r).da_pre_count)).sum
        = ((sortedRegions df).map (fun r => (subOf df r).countP (fun y => has_pre y))).sum := rfl
    rw [hmap, countP_partition df (fun y => has_pre y)]
    show df.countP (fun y => has_pre y && y.region.isSome) < df.countP (fun y => has_pre y)
    rw [countP_and_split df (fun y => has_pre y) (fun y => y.region.isSome)]
    have hpos : 0 < df.countP (fun y => has_pre y && !y.region.isSome) := by
      rw [List.countP_pos_iff]
      exact ⟨x, hx, by simp [hpre, hnull]⟩
    omega

/-- Witness for the amended C9 theorem at a concrete one-record input. -/
theorem null_region_unknown_row_total_wit :
    (∀ r : String, x9w ∉ subOf df9w r) ∧
    "Unknown" ∈ sortedRegions df9w ∧
    ((∀ y ∈ df9w, y.region ≠ some "Unknown") →
      subOf df9w "Unknown" = [] ∧
      regionRow df9w "Unknown" = regionRow [] "Unknown") ∧
    (has_pre x9w = true →
      ((sortedRegions df9w).map (fun r => (regionRow df9w r).da_pre_count)).sum
        < (totalRow df9w).da_pre_count) :=
  null_region_unknown_row_total df9w x9w (by decide) rfl

end Agastya
